import Mathlib

attribute [local semireducible] Rat.add Rat.sub Rat.mul Rat.inv Rat.ofScientific

/-!
# Verification of the nex world-graph engine

Shallow embedding of the engine sources (`engine/decay.js`, `engine/topology.js`
(v2 variant bundled in `engine/world.js`), `engine/prune.js`, the entity tracker,
event tracker and memory engine, and the v2 `World.cycle` orchestrator), together
with proofs and refutations of the specification's claims.

Modelling conventions:
* JS numbers are embedded as `ℚ` wherever the relevant computations are exact
  field arithmetic (similarity, prune scores, memory averages), and as `ℝ`
  where `Math.exp` is involved (the decay score).  Timestamps are rationals
  (milliseconds).
* Stochastic choices (`Math.random`) are passed in as explicit oracle
  parameters, so theorems quantify over every possible draw.
* External collaborators that the design document places out of scope
  (ingestion, the room factory, the commentary generator, the force layout's
  stochastic coordinates) are oracle parameters of `World.cycle`.
* Human-readable `description` strings of events are presentation-only and are
  omitted from the `Event` record; the event `etype` tag and the involved ids
  are kept.
-/

/-- A classified observation, as produced by the (out-of-scope) ingestion
layer; only the fields the core engines read are kept. -/
structure Obs where
  text : String
  topic : String
  sentiment : ℚ
  virality : ℚ
deriving DecidableEq

/-- A trace residue absorbed by a neighbor of a pruned room
(`prune.js`, the object pushed onto `neighbor.traces`). -/
structure Trace where
  fromName : String
  topic : String
  echo : String
  absorbedAt : ℚ
deriving DecidableEq

/-- A movement record in an entity's bounded history
(`entities.js`, the object pushed onto `entity.history`). -/
structure Transition where
  fromRoom : ℕ
  toRoom : ℕ
  timestamp : ℚ
deriving DecidableEq

/-- A room ("node") of the world graph.  Field names follow the JS record;
`entropy.score/halfLife/createdAt` are flattened to `score/halfLife/createdAt`,
`fragments.words/sentences` to `words/sentences`, `_addedCycle` to
`addedCycle`, `archetype.lightColor` to `lightColor` and `dimensions`/
`position` to `width/height/posX/posY`.  Room ids are modelled as naturals. -/
structure Room where
  id : ℕ
  name : String
  topic : String
  sentiment : ℚ
  virality : ℚ
  score : ℚ
  halfLife : ℚ
  createdAt : ℚ
  lastRefreshedCycle : ℕ
  addedCycle : ℕ
  connections : List ℕ
  traces : List Trace
  words : List String
  sentences : List String
  commentary : String
  lightColor : String
  width : ℚ
  height : ℚ
  posX : ℚ
  posY : ℚ
deriving DecidableEq

instance : Inhabited Room :=
  ⟨⟨0, "", "", 0, 0, 0, 1, 0, 0, 0, [], [], [], [], "", "", 0, 0, 0, 0⟩⟩

/-- A corridor ("edge"); `from`/`to` of the JS record become
`fromId`/`toId` (`from` is reserved in Lean). -/
structure Corridor where
  fromId : ℕ
  toId : ℕ
  sim : ℚ
  width : ℚ
  len : ℚ
  decay : ℚ
deriving DecidableEq

/-- An artifact harvested from a collapsed room (`DecayEngine.harvestFragments`)
or left by a pruned room (`PruneEngine.prune`); optional fields are present only
on the prune-side shape. -/
structure Artifact where
  sourceRoom : ℕ
  sourceName : Option String
  sourceTopic : String
  fragments : List String
  sentiment : ℚ
  commentary : Option String
  collapsedAt : ℚ
  cycle : Option ℕ
deriving DecidableEq

/-- An inhabitant ("entity") of the graph (`entities.js`). -/
structure Entity where
  id : String
  name : String
  etype : String
  topics : List String
  appearances : ℕ
  firstSeen : ℚ
  lastSeen : ℚ
  strength : ℚ
  currentRoom : Option ℕ
  recentContexts : List String
  history : List Transition
deriving DecidableEq

/-- A logged event (`events.js`); the presentation-only `description` string is
omitted, the discriminating `type` tag is kept as `etype`. -/
structure Event where
  timestamp : ℚ
  etype : String
  involvedRooms : List ℕ
  involvedEntities : List String
deriving DecidableEq

/-- One per-topic memory snapshot (`memory.js`): topic, room count and rounded
mean sentiment, in JS object-key insertion order. -/
structure TopicSnapshot where
  cycle : ℕ
  timestamp : ℚ
  topics : List (String × ℕ × ℚ)
deriving DecidableEq

/-- The rolling memory histories (`memory.js`). -/
structure Memory where
  topicHistory : List TopicSnapshot
  totalRoomHistory : List (ℕ × ℕ)
  maxHistoryLength : ℕ
deriving DecidableEq

/-- The summary statistics `TopologyEngine.buildTopology` writes into
`state.stats`. -/
structure Stats where
  totalRooms : ℕ
  totalCorridors : ℕ
  topics : List String
  avgSentiment : ℚ
  avgVirality : ℚ
deriving DecidableEq

/-- The aggregate world state owned by the orchestrator (`world.js`, v2). -/
structure WorldState where
  version : ℕ
  createdAt : ℚ
  lastUpdate : Option ℚ
  observationCycles : ℕ
  rooms : List Room
  corridors : List Corridor
  artifacts : List Artifact
  entities : List Entity
  events : List Event
  memory : Memory
  stats : Stats
deriving DecidableEq

/-- First occurrences of a list's elements in order — the key order of a JS
`Map`/`Set` populated by iterated insertion. -/
def firstOccs (l : List String) : List String :=
  l.foldl (fun acc t => if t ∈ acc then acc else acc ++ [t]) []

namespace DecayEngine

/-- The entropy score `DecayEngine.tick` writes onto a room
(`decay.js` lines 21–23), as a real number:
`elapsed = (now − createdAt)/1000`, `decay = 1 − exp(−0.693·elapsed/halfLife)`,
`score = min 1 decay`.  Note the source constant is `0.693`, not `ln 2`. -/
noncomputable def tickScore (halfLife createdAt now : ℝ) : ℝ :=
  min 1 (1 - Real.exp (-(693 / 1000) * ((now - createdAt) / 1000) / halfLife))

end DecayEngine

namespace DecayEngine

/-- The classification result of `DecayEngine.tick`. -/
structure TickResult where
  active : List Room
  decayed : List Room
  collapsed : List Room
deriving DecidableEq

/-- Update one room's entropy score (`decay.js` lines 21–23) over `ℚ`, with
the double-precision `Math.exp` supplied as the oracle `expFn`; used by the
executable `World.cycle` model (the real-exponential analysis of the same
lines is `tickScore`). -/
def tickRoom (expFn : ℚ → ℚ) (now : ℚ) (r : Room) : Room :=
  let elapsed := (now - r.createdAt) / 1000
  let decay := 1 - expFn (-(693 / 1000) * elapsed / r.halfLife)
  { r with score := min 1 decay }

/-- `DecayEngine.tick(rooms, now)` (`decay.js` lines 15–35): write the new
score onto every room and classify into active / decayed / collapsed. -/
def tick (expFn : ℚ → ℚ) (now : ℚ) (rooms : List Room) : TickResult :=
  rooms.foldl
    (fun acc r =>
      let r' := tickRoom expFn now r
      if r'.score ≥ 1 then { acc with collapsed := acc.collapsed ++ [r'] }
      else if r'.score ≥ 7 / 10 then { acc with decayed := acc.decayed ++ [r'] }
      else { acc with active := acc.active ++ [r'] })
    ⟨[], [], []⟩

/-- The entropy-gated degradation of one room
(`DecayEngine.applyEffects`, `decay.js` lines 44–65).  The character-level
scrambling and hex-color dimming are lexical and are supplied as oracles
`scrambleFn`/`dimFn`; `rand` is the `Math.random()` draw of the
dimension-warp branch. -/
def applyEffectsRoom (scrambleFn : ℚ → String → String)
    (dimFn : ℚ → String → String) (rand : ℚ) (r : Room) : Room :=
  let e := r.score
  let r1 := if e > 3 / 10 then
      { r with sentences := r.sentences.map (scrambleFn e) } else r
  let r2 := if e > 1 / 2 then
      { r1 with lightColor := dimFn e r1.lightColor } else r1
  if e > 3 / 5 then
    let warp := 1 + (rand - 1 / 2) * e * (2 / 5)
    { r2 with width := r2.width * warp, height := r2.height * (2 - warp) }
  else r2

/-- `DecayEngine.applyEffects(rooms)` over a list, one random draw per room. -/
def applyEffects (scrambleFn : ℚ → String → String)
    (dimFn : ℚ → String → String) (rand : ℕ → ℚ) (rooms : List Room) :
    List Room :=
  (rooms.enum).map (fun p => applyEffectsRoom scrambleFn dimFn (rand p.1) p.2)

/-- `DecayEngine.harvestFragments(room)`: the artifact of a collapsing room. -/
def harvestFragments (now : ℚ) (room : Room) : Artifact :=
  { sourceRoom := room.id
    sourceName := none
    sourceTopic := room.topic
    fragments := room.words.take 3
    sentiment := room.sentiment
    commentary := none
    collapsedAt := now
    cycle := none }

end DecayEngine

namespace TopologyEngine

/-- `TopologyEngine.similarity(roomA, roomB)` (v2 `world.js` lines 366–381 and
`topology.js` lines 18–33; both variants are textually identical):
topic match adds 0.5, sentiment proximity `(1−|Δs|)·0.3`, virality proximity
`max(0, 1−|Δv|/5)·0.2`. -/
def similarity (roomA roomB : Room) : ℚ :=
  let base : ℚ := if roomA.topic = roomB.topic then 1 / 2 else 0
  let sentDiff := |roomA.sentiment - roomB.sentiment|
  let virDiff := |roomA.virality - roomB.virality|
  base + (1 - sentDiff) * (3 / 10) + max 0 (1 - virDiff / 5) * (1 / 5)

/-- The canonical unordered-pair key of `addCorridor`
(`` `${a.id}|${b.id}` `` with the smaller id first). -/
def canonKey (a b : ℕ) : ℕ × ℕ :=
  if a < b then (a, b) else (b, a)

/-- The mutable state threaded through corridor generation: the corridor list,
the set of canonical pair keys already used, and each room's `connections`
array (keyed by room id; room ids are unique per the data model). -/
structure TopoState where
  corridors : List Corridor
  keys : List (ℕ × ℕ)
  conns : ℕ → List ℕ

/-- The `addCorridor` closure of the v2 `generateCorridors`
(`world.js` lines 399–412): reject a duplicate canonical key, otherwise record
the corridor and push each endpoint onto the other's connection array. -/
def addCorridor (a b : Room) (sim : ℚ) (st : TopoState) : TopoState :=
  let key := canonKey a.id b.id
  if key ∈ st.keys then st
  else
    { corridors := st.corridors ++
        [⟨a.id, b.id, sim, 1 + sim * 3, max 2 ((1 - sim) * 10), 0⟩]
      keys := st.keys ++ [key]
      conns := fun i =>
        st.conns i ++ (if i = a.id then [b.id] else []) ++
          (if i = b.id then [a.id] else []) }

/-- Insert into a list kept sorted by descending similarity (the comparator
`(a, b) => b.sim - a.sim`). -/
def insertDesc (x : Room × ℚ) : List (Room × ℚ) → List (Room × ℚ)
  | [] => [x]
  | y :: ys => if x.2 > y.2 then x :: y :: ys else y :: insertDesc x ys

/-- Sort scored candidates by descending similarity. -/
def sortDesc (l : List (Room × ℚ)) : List (Room × ℚ) :=
  l.foldr insertDesc []

/-- One step of the intra-topic pass (`world.js` lines 415–427): score the
group members after `g`, sort descending, and connect the top 5 that meet
the threshold. -/
def intraOne (threshold : ℚ) (g : Room) (rest : List Room) (st : TopoState) :
    TopoState :=
  let scored := rest.map (fun o => (o, similarity g o))
  ((sortDesc scored).take 5).foldl
    (fun s p => if p.2 ≥ threshold then addCorridor g p.1 p.2 s else s) st

/-- The intra-topic pass over one topic group. -/
def intraGroup (threshold : ℚ) : List Room → TopoState → TopoState
  | [], st => st
  | g :: rest, st => intraGroup threshold rest (intraOne threshold g rest st)

/-- Connect `room` to the first member of the sampled candidates meeting the
threshold (the inner `for (const other of sample)` loop with `break`). -/
def firstConnect (room : Room) (threshold : ℚ) :
    List Room → TopoState → TopoState × Bool
  | [], st => (st, false)
  | o :: os, st =>
      if similarity room o ≥ threshold then
        (addCorridor room o (similarity room o) st, true)
      else firstConnect room threshold os st

/-- The cross-topic loop over other topics for one room (`world.js`
lines 430–447).  Note the source `break`s — rather than skipping — when it
reaches the room's own topic.  `shuffle` is the oracle for the random
5-element sample, indexed by a running call counter. -/
def crossTopics (room : Room) (myTopic : String) (threshold : ℚ)
    (shuffle : ℕ → List Room → List Room) :
    List (String × List Room) → ℕ → ℕ → TopoState → TopoState × ℕ
  | [], _, k, st => (st, k)
  | (t, others) :: rest, cnt, k, st =>
      if t = myTopic ∨ cnt ≥ 3 then (st, k)
      else
        let sample := if others.length ≤ 5 then others
          else (shuffle k others).take 5
        let res := firstConnect room threshold sample st
        crossTopics room myTopic threshold shuffle rest
          (if res.2 then cnt + 1 else cnt) (k + 1) res.1

/-- The cross-topic pass for one room: skip rooms that already have 3 or more
connections. -/
def crossRoom (threshold : ℚ) (shuffle : ℕ → List Room → List Room)
    (groups : List (String × List Room)) (room : Room) (k : ℕ)
    (st : TopoState) : TopoState × ℕ :=
  if (st.conns room.id).length ≥ 3 then (st, k)
  else crossTopics room room.topic threshold shuffle groups 0 k st

/-- The cross-topic pass over the rooms of one group. -/
def crossGroup (threshold : ℚ) (shuffle : ℕ → List Room → List Room)
    (groups : List (String × List Room)) :
    List Room → ℕ → TopoState → TopoState × ℕ
  | [], k, st => (st, k)
  | r :: rs, k, st =>
      let res := crossRoom threshold shuffle groups r k st
      crossGroup threshold shuffle groups rs res.2 res.1

/-- The cross-topic pass over all groups. -/
def crossPass (threshold : ℚ) (shuffle : ℕ → List Room → List Room)
    (groups : List (String × List Room)) :
    List (String × List Room) → ℕ → TopoState → TopoState × ℕ
  | [], k, st => (st, k)
  | (_, g) :: rest, k, st =>
      let res := crossGroup threshold shuffle groups g k st
      crossPass threshold shuffle groups rest res.2 res.1

/-- The best-candidate fold of the connectivity-repair pass (`world.js`
lines 458–464): skip the room itself, track the strictly best similarity,
starting from `bestSim = −1` and no candidate. -/
def findBest (room : Room) : List Room → Option Room × ℚ → Option Room × ℚ
  | [], acc => acc
  | o :: os, acc =>
      if o.id = room.id then findBest room os acc
      else if similarity room o > acc.2 then
        findBest room os (some o, similarity room o)
      else findBest room os acc

/-- One step of the connectivity-repair pass (`world.js` lines 454–468):
an isolated room (when more than one room exists) connects to the best
candidate from its own topic group, or from the first 50 rooms if that group
has only one member. -/
def repairOne (rooms : List Room) (room : Room) (st : TopoState) : TopoState :=
  if (st.conns room.id).length = 0 ∧ rooms.length > 1 then
    let sameTopicRooms := rooms.filter (fun r => r.topic = room.topic)
    let candidates := if sameTopicRooms.length > 1 then sameTopicRooms
      else rooms.take 50
    match findBest room candidates (none, -1) with
    | (some b, bs) => addCorridor room b bs st
    | (none, _) => st
  else st

/-- The connectivity-repair pass over all rooms. -/
def repairPass (rooms : List Room) : List Room → TopoState → TopoState
  | [], st => st
  | r :: rs, st => repairPass rooms rs (repairOne rooms r st)

/-- Group rooms by topic in first-occurrence order (the JS `Map` `byTopic`). -/
def byTopicList (rooms : List Room) : List (String × List Room) :=
  (firstOccs (rooms.map (fun r => r.topic))).map
    (fun t => (t, rooms.filter (fun r => r.topic = t)))

/-- The v2 `TopologyEngine.generateCorridors(rooms, threshold = 0.4)`
(`world.js` lines 387–471): intra-topic nearest-neighbor connections, sampled
cross-topic connections, then the connectivity-repair pass.  Connection
arrays start empty (the orchestrator resets them before every rebuild). -/
def generateCorridors (shuffle : ℕ → List Room → List Room) (threshold : ℚ)
    (rooms : List Room) : TopoState :=
  let groups := byTopicList rooms
  let st0 : TopoState := ⟨[], [], fun _ => []⟩
  let st1 := groups.foldl (fun s tg => intraGroup threshold tg.2 s) st0
  let st2 := (crossPass threshold shuffle groups groups 0 st1).1
  repairPass rooms rooms st2

end TopologyEngine

namespace PruneEngine

/-- The reference cycle of a room's staleness clock: the JS chain
`room.lastRefreshedCycle || room._addedCycle || 0` (`0` is falsy). -/
def refCycle (r : Room) : ℕ :=
  if r.lastRefreshedCycle ≠ 0 then r.lastRefreshedCycle else r.addedCycle

/-- A room's age in cycles (`prune.js` line 31). -/
def age (currentCycle : ℕ) (r : Room) : ℤ :=
  (currentCycle : ℤ) - (refCycle r : ℤ)

/-- The partitioning loop of `PruneEngine.prune` (`prune.js` lines 30–48):
stale high-entropy rooms are pruned; stale moderately-decayed ones are kept
with a +0.15 score boost capped at 1; everything else is kept untouched.
Returns `(toKeep, toPrune)` in input order. -/
def pruneSplit (currentCycle : ℕ) (staleCycles : ℕ) :
    List Room → List Room × List Room
  | [] => ([], [])
  | r :: rs =>
      let rec' := pruneSplit currentCycle staleCycles rs
      if age currentCycle r ≥ (staleCycles : ℤ) ∧ r.score ≥ 3 / 5 then
        (rec'.1, r :: rec'.2)
      else if age currentCycle r ≥ (staleCycles : ℤ) ∧ r.score ≥ 2 / 5 then
        ({ r with score := min 1 (r.score + 15 / 100) } :: rec'.1, rec'.2)
      else (r :: rec'.1, rec'.2)

/-- The neighbor set of a room id built from the corridor adjacency
(`prune.js` lines 20–27); a JS `Set`, so duplicates collapse and insertion
order is kept. -/
def neighborsOf (corridors : List Corridor) (i : ℕ) : List ℕ :=
  corridors.foldl
    (fun acc c =>
      let acc1 := if c.fromId = i ∧ c.toId ∉ acc then acc ++ [c.toId] else acc
      if c.toId = i ∧ c.fromId ∉ acc1 then acc1 ++ [c.fromId] else acc1)
    []

/-- Update the first room in the list satisfying `p`
(the JS `toKeep.find(...)` followed by in-place mutation). -/
def updateFirst (p : Room → Prop) [DecidablePred p] (f : Room → Room) :
    List Room → List Room
  | [] => []
  | r :: rs => if p r then f r :: rs else r :: updateFirst p f rs

/-- Push a trace onto a room's bounded trace FIFO (capacity 5, oldest
shifted out). -/
def pushTrace (tr : Trace) (r : Room) : Room :=
  let ts := r.traces ++ [tr]
  { r with traces := if ts.length > 5 then ts.drop 1 else ts }

/-- The echo excerpt a pruned room leaves behind:
`(room.fragments.sentences && room.fragments.sentences[0]) || '...'`. -/
def echoOf (room : Room) : String :=
  match room.sentences.head? with
  | some s => if s = "" then "..." else s
  | none => "..."

/-- The artifact record a pruned room leaves (`prune.js` lines 59–69);
an empty commentary string is falsy in JS, hence `none`. -/
def pruneFragment (now : ℚ) (currentCycle : ℕ) (room : Room) : Artifact :=
  { sourceRoom := room.id
    sourceName := some room.name
    sourceTopic := room.topic
    fragments := room.words.take 4
    sentiment := room.sentiment
    commentary := if room.commentary = "" then none
      else some (room.commentary.take 80)
    collapsedAt := now
    cycle := some currentCycle }

/-- Process one pruned room (`prune.js` lines 58–110): record its artifact,
distribute traces to its living kept neighbors, fall back to a random
same-topic absorber when it has no living neighbor, and emit its
`room_pruned` event.  `pickA` is the random absorber index draw. -/
def pruneOne (now : ℚ) (currentCycle : ℕ) (corridors : List Corridor)
    (prunedIds : List ℕ) (pickA : ℕ) (room : Room) (kept : List Room) :
    List Room × Artifact × Event :=
  let livingNeighbors :=
    (neighborsOf corridors room.id).filter (fun i => i ∉ prunedIds)
  let tr : Trace := ⟨room.name, room.topic, echoOf room, now⟩
  let kept1 := livingNeighbors.foldl
    (fun ks nid => updateFirst (fun r => r.id = nid) (pushTrace tr) ks) kept
  let kept2 :=
    if livingNeighbors.length = 0 then
      let sameTopic := kept1.filter (fun r => r.topic = room.topic)
      if sameTopic.length > 0 then
        let target := sameTopic.getD (pickA % min 3 sameTopic.length) default
        updateFirst (fun r => r.id = target.id) (pushTrace tr) kept1
      else kept1
    else kept1
  (kept2, pruneFragment now currentCycle room,
    ⟨now, "room_pruned", room.id :: livingNeighbors.take 3, []⟩)

/-- Fold `pruneOne` over the pruned rooms, threading the kept list and
accumulating artifacts and events in order. -/
def pruneAll (now : ℚ) (currentCycle : ℕ) (corridors : List Corridor)
    (prunedIds : List ℕ) (pickA : ℕ → ℕ) :
    List Room → ℕ → List Room → List Room × List Artifact × List Event
  | [], _, kept => (kept, [], [])
  | room :: rest, k, kept =>
      let step := pruneOne now currentCycle corridors prunedIds (pickA k) room kept
      let res := pruneAll now currentCycle corridors prunedIds pickA rest (k + 1) step.1
      (res.1, step.2.1 :: res.2.1, step.2.2 :: res.2.2)

/-- The result record of `PruneEngine.prune`. -/
structure PruneResult where
  kept : List Room
  pruned : List Room
  fragments : List Artifact
  events : List Event

/-- `PruneEngine.prune(state, staleCycles = 5)` (`prune.js` lines 13–113). -/
def prune (now : ℚ) (pickA : ℕ → ℕ) (st : WorldState) (staleCycles : ℕ) :
    PruneResult :=
  let currentCycle := st.observationCycles
  let split := pruneSplit currentCycle staleCycles st.rooms
  let prunedIds := split.2.map (fun r => r.id)
  let res := pruneAll now currentCycle st.corridors prunedIds pickA split.2 0 split.1
  ⟨res.1, split.2, res.2.1, res.2.2⟩

/-- `PruneEngine.refreshRooms(rooms, newRooms, currentCycle)`
(`prune.js` lines 118–129): reset the staleness clock of existing rooms whose
topic got fresh activity, and stamp the new rooms. -/
def refreshRooms (rooms newRooms : List Room) (currentCycle : ℕ) :
    List Room × List Room :=
  let newTopics := newRooms.map (fun r => r.topic)
  (rooms.map (fun r =>
      if r.topic ∈ newTopics then { r with lastRefreshedCycle := currentCycle }
      else r),
   newRooms.map (fun r =>
      { r with lastRefreshedCycle := currentCycle, addedCycle := currentCycle }))

end PruneEngine

namespace EntityTracker

/-- Insert into a list kept sorted by ascending entropy score
(the comparator `(a, b) => a.entropy.score - b.entropy.score`). -/
def insertAsc (x : Room) : List Room → List Room
  | [] => [x]
  | y :: ys => if x.score < y.score then x :: y :: ys else y :: insertAsc x ys

/-- Sort rooms by ascending entropy score. -/
def sortAsc (l : List Room) : List Room :=
  l.foldr insertAsc []

/-- Relocate one entity (`EntityTracker.wander`, entity module lines
368–392): filter rooms matching any of its topics — if none, the entity is
left exactly as it is (the JS `continue`) — otherwise pick uniformly among
the 3 lowest-entropy candidates (`pick` is the random draw) and log a
transition when the assignment changed, FIFO-capped at 20. -/
def wanderOne (rooms : List Room) (pick : ℕ) (now : ℚ) (e : Entity) : Entity :=
  let relevantRooms := rooms.filter (fun r => r.topic ∈ e.topics)
  if relevantRooms.length = 0 then e
  else
    let sorted := sortAsc relevantRooms
    let picked := sorted.getD (pick % min 3 sorted.length) default
    match e.currentRoom with
    | some prev =>
        if prev ≠ picked.id then
          let hist := e.history ++ [⟨prev, picked.id, now⟩]
          { e with
            currentRoom := some picked.id
            history := if hist.length > 20 then hist.drop 1 else hist }
        else { e with currentRoom := some picked.id }
    | none => { e with currentRoom := some picked.id }

/-- `EntityTracker.wander(rooms)` over the whole population, one random draw
per entity. -/
def wander (rooms : List Room) (pick : ℕ → ℕ) (now : ℚ)
    (entities : List Entity) : List Entity :=
  (entities.enum).map (fun p => wanderOne rooms (pick p.1) now p.2)

end EntityTracker

namespace EventTracker

/-- The per-cycle context handed to `EventTracker.detect`. -/
structure EvContext where
  newRooms : List Room
  prunedRooms : List Room
  pruneEvents : List Event

/-- `EventTracker.detect(state, context)` (event module lines 14–88):
pass through prune events, then derive topic emergence, topic death, entity
dominance and mass collapse from the cycle's deltas. -/
def detect (now : ℚ) (st : WorldState) (ctx : EvContext) : List Event :=
  let existingTopics := st.rooms.map (fun r => r.topic)
  let newTopics := firstOccs
    ((ctx.newRooms.filter (fun r => r.topic ∉ existingTopics)).map
      (fun r => r.topic))
  let emerged := newTopics.map (fun t =>
    (⟨now, "topic_emerged",
      (ctx.newRooms.filter (fun r => r.topic = t)).map (fun r => r.id),
      []⟩ : Event))
  let deaths :=
    if ctx.prunedRooms.length > 0 then
      let prunedTopics := firstOccs (ctx.prunedRooms.map (fun r => r.topic))
      let remainingTopics := st.rooms.map (fun r => r.topic)
      (prunedTopics.filter (fun t => t ∉ remainingTopics)).map (fun t =>
        (⟨now, "topic_death",
          (ctx.prunedRooms.filter (fun r => r.topic = t)).map (fun r => r.id),
          []⟩ : Event))
    else []
  let strong := st.entities.filter (fun e => e.strength ≥ 4 / 5)
  let dominant := strong.map (fun e =>
    (⟨now, "entity_dominant",
      (match e.currentRoom with | some r => [r] | none => []),
      [e.id]⟩ : Event))
  let mass :=
    if ctx.prunedRooms.length ≥ 10 then
      [(⟨now, "mass_collapse",
        (ctx.prunedRooms.take 10).map (fun r => r.id), []⟩ : Event)]
    else []
  ctx.pruneEvents ++ emerged ++ deaths ++ dominant ++ mass

/-- `EventTracker.record(state, newEvents)`: append and trim to the most
recent 100 (`slice(-100)`). -/
def record (events newEvents : List Event) : List Event :=
  let es := events ++ newEvents
  if es.length > 100 then es.drop (es.length - 100) else es

end EventTracker

namespace MemoryEngine

/-- Accumulate per-topic `(count, totalSentiment)` in JS object-key insertion
order (`memory.js` lines 29–36). -/
def bumpTopic (t : String) (s : ℚ) :
    List (String × ℕ × ℚ) → List (String × ℕ × ℚ)
  | [] => [(t, 1, s)]
  | (u, c, tot) :: rest =>
      if u = t then (u, c + 1, tot + s) :: rest
      else (u, c, tot) :: bumpTopic t s rest

/-- `Math.round(x * 100) / 100` (JS `Math.round` rounds half toward +∞,
matching Mathlib's `round`). -/
def roundTo2 (q : ℚ) : ℚ :=
  (round (q * 100) : ℤ) / 100

/-- Trim a rolling history to its cap (`slice(-max)`, with the cap read as
`mem.maxHistoryLength || 50`). -/
def trimTo {α : Type} (maxLen : ℕ) (l : List α) : List α :=
  let mx := if maxLen ≠ 0 then maxLen else 50
  if l.length > mx then l.drop (l.length - mx) else l

/-- `MemoryEngine.update(state)` (`memory.js` lines 15–58): append this
cycle's per-topic and total-count snapshots and trim both histories. -/
def update (now : ℚ) (cycle : ℕ) (rooms : List Room) (mem : Memory) : Memory :=
  let stats := rooms.foldl (fun acc r => bumpTopic r.topic r.sentiment acc) []
  let snapshot := stats.map (fun p =>
    (p.1, p.2.1, if p.2.1 > 0 then roundTo2 (p.2.2 / (p.2.1 : ℚ)) else 0))
  { topicHistory :=
      trimTo mem.maxHistoryLength (mem.topicHistory ++ [⟨cycle, now, snapshot⟩])
    totalRoomHistory :=
      trimTo mem.maxHistoryLength (mem.totalRoomHistory ++ [(cycle, rooms.length)])
    maxHistoryLength := mem.maxHistoryLength }

end MemoryEngine

namespace World

/-- The oracle bundle for one `World.cycle` run: the out-of-scope external
collaborators (room factory, entity extraction/update, commentary) and every
`Math.random`/`Math.exp` draw the in-scope engines consume.  `layoutPos`
abstracts the stochastic force-directed coordinates of `layoutRooms`, for
which the design guarantees no exact values. -/
structure CycleOracles where
  roomGen : List Obs → List Room
  entityUpdate : List Entity → List Obs → List Entity
  expFn : ℚ → ℚ
  scrambleFn : ℚ → String → String
  dimFn : ℚ → String → String
  fxRand : ℕ → ℚ
  annotate : Room → String
  pickAbsorb : ℕ → ℕ
  pickWander : ℕ → ℕ
  shuffle : ℕ → List Room → List Room
  layoutPos : ℕ → ℚ × ℚ

/-- The `stats` record `buildTopology` computes (empty-list averages are `0`
via the JS `|| 0`). -/
def statsOf (rooms : List Room) (corridors : List Corridor) : Stats :=
  { totalRooms := rooms.length
    totalCorridors := corridors.length
    topics := firstOccs (rooms.map (fun r => r.topic))
    avgSentiment := if rooms.length = 0 then 0
      else (rooms.map (fun r => r.sentiment)).sum / (rooms.length : ℚ)
    avgVirality := if rooms.length = 0 then 0
      else (rooms.map (fun r => r.virality)).sum / (rooms.length : ℚ) }

/-- The v2 `World.cycle(queries)` (`world.js` lines 215–310), from the point
where ingestion has produced `observations`.  If ingestion yielded zero
observations the cycle returns the state unchanged; otherwise it runs the
full pipeline: room factory, entity update, decay with artifact harvesting,
staleness refresh and pruning, commentary and admission of new rooms, entity
wandering, topology rebuild, event detection and recording, then cycle
counter increment and memory update. -/
def cycle (o : CycleOracles) (now : ℚ) (st : WorldState)
    (observations : List Obs) : WorldState :=
  if observations.length = 0 then st
  else
    let newRooms := o.roomGen observations
    let entities3 := o.entityUpdate st.entities observations
    let decayStep :=
      if st.rooms.length > 0 then
        let t := DecayEngine.tick o.expFn now st.rooms
        let affected := DecayEngine.applyEffects o.scrambleFn o.dimFn o.fxRand
          (t.active ++ t.decayed)
        (affected, st.artifacts ++
          t.collapsed.map (DecayEngine.harvestFragments now))
      else (st.rooms, st.artifacts)
    let refreshed := PruneEngine.refreshRooms decayStep.1 newRooms
      st.observationCycles
    let pruneRes := PruneEngine.prune now o.pickAbsorb
      { st with rooms := refreshed.1 } 5
    -- The soft-decay boosts are in-place mutations in the source, so the
    -- surviving room list is `kept` whether or not anything was pruned.
    let rooms5 := pruneRes.kept
    let artifacts5 := if pruneRes.pruned.length > 0 then
      decayStep.2 ++ pruneRes.fragments else decayStep.2
    let newRooms6 := refreshed.2.map (fun r => { r with commentary := o.annotate r })
    let rooms6 := rooms5 ++ newRooms6
    let entities7 := EntityTracker.wander rooms6 o.pickWander now entities3
    let roomsReset := rooms6.map (fun r => { r with connections := [] })
    let topo := TopologyEngine.generateCorridors o.shuffle (2 / 5) roomsReset
    let rooms8 := roomsReset.map (fun r =>
      { r with
        connections := topo.conns r.id
        posX := (o.layoutPos r.id).1
        posY := (o.layoutPos r.id).2 })
    let newEvents := EventTracker.detect now
      { st with rooms := rooms8, entities := entities7 }
      ⟨newRooms6, pruneRes.pruned, pruneRes.events⟩
    let events9 := EventTracker.record st.events newEvents
    let cyc10 := st.observationCycles + 1
    let memory10 := MemoryEngine.update now cyc10 rooms8 st.memory
    { version := 2
      createdAt := st.createdAt
      lastUpdate := some now
      observationCycles := cyc10
      rooms := rooms8
      corridors := topo.corridors
      artifacts := artifacts5
      entities := entities7
      events := events9
      memory := memory10
      stats := statsOf rooms8 topo.corridors }

end World

/-! ## Concrete fixtures used by witnesses and counterexamples -/

/-- A room with the given id, topic, sentiment, virality, entropy score and
staleness fields, all other fields neutral. -/
def mkRoom (i : ℕ) (t : String) (s v sc : ℚ) (lrc ac : ℕ) : Room :=
  { id := i, name := "r", topic := t, sentiment := s, virality := v, score := sc,
    halfLife := 1, createdAt := 0, lastRefreshedCycle := lrc, addedCycle := ac,
    connections := [], traces := [], words := [], sentences := [],
    commentary := "", lightColor := "", width := 2, height := 2, posX := 0,
    posY := 0 }

/-! ## C9: the zero-observation cycle is a no-op -/

/-- C9: if ingestion yields zero observations, `World.cycle` returns
immediately after the ingestion step and every field of the world state
(rooms, corridors, artifacts, entities, events, memory, cycle counter and
timestamps) is unchanged — the returned state is the input state itself,
for every oracle choice. -/
theorem claim_C9_zero_observations_noop (o : World.CycleOracles) (now : ℚ)
    (st : WorldState) : World.cycle o now st [] = st := rfl

/-! ## C10: the dimension warp never grows a room's area -/

/-- Auxiliary: `w·warp · h·(2−warp) ≤ w·h` for positive `w`, `h`. -/
theorem warp_mul_area_le (w h warp : ℚ) (hw : 0 < w) (hh : 0 < h) :
    w * warp * (h * (2 - warp)) ≤ w * h := by
  nlinarith [sq_nonneg (1 - warp), mul_pos hw hh]

/-- Auxiliary: the warped area equals the original area iff `warp = 1`. -/
theorem warp_mul_area_eq_iff (w h warp : ℚ) (hw : 0 < w) (hh : 0 < h) :
    w * warp * (h * (2 - warp)) = w * h ↔ warp = 1 := by
  constructor
  · intro he
    have hwh : 0 < w * h := mul_pos hw hh
    have hsq : (1 - warp) ^ 2 * (w * h) = 0 := by ring_nf; ring_nf at he; linarith
    have : (1 - warp) ^ 2 = 0 := by
      rcases mul_eq_zero.mp hsq with h0 | h0
      · exact h0
      · exact absurd h0 (ne_of_gt hwh)
    have h1 : 1 - warp = 0 := by
      exact pow_eq_zero_iff (by norm_num) |>.mp this
    linarith
  · intro hw1
    subst hw1
    ring

/-- C10: for a room with entropy score above 0.6 and any random draw, the
dimension-warp step of `applyEffects` multiplies width by `warp` and height
by `2 − warp`, so the room's area never increases, with equality exactly
when `warp = 1`. -/
theorem claim_C10_warp_shrinks_area (scrambleFn dimFn : ℚ → String → String)
    (rand : ℚ) (r : Room) (hs : 3 / 5 < r.score) (hw : 0 < r.width)
    (hh : 0 < r.height) :
    (DecayEngine.applyEffectsRoom scrambleFn dimFn rand r).width =
        r.width * (1 + (rand - 1 / 2) * r.score * (2 / 5)) ∧
    (DecayEngine.applyEffectsRoom scrambleFn dimFn rand r).height =
        r.height * (2 - (1 + (rand - 1 / 2) * r.score * (2 / 5))) ∧
    (DecayEngine.applyEffectsRoom scrambleFn dimFn rand r).width *
        (DecayEngine.applyEffectsRoom scrambleFn dimFn rand r).height ≤
      r.width * r.height ∧
    ((DecayEngine.applyEffectsRoom scrambleFn dimFn rand r).width *
        (DecayEngine.applyEffectsRoom scrambleFn dimFn rand r).height =
      r.width * r.height ↔ 1 + (rand - 1 / 2) * r.score * (2 / 5) = 1) := by
  have hww : (DecayEngine.applyEffectsRoom scrambleFn dimFn rand r).width =
      r.width * (1 + (rand - 1 / 2) * r.score * (2 / 5)) := by
    simp only [DecayEngine.applyEffectsRoom]
    split_ifs <;> simp [hs]
  have hhh : (DecayEngine.applyEffectsRoom scrambleFn dimFn rand r).height =
      r.height * (2 - (1 + (rand - 1 / 2) * r.score * (2 / 5))) := by
    simp only [DecayEngine.applyEffectsRoom]
    split_ifs <;> simp [hs]
  refine ⟨hww, hhh, ?_, ?_⟩
  · rw [hww, hhh]
    have := warp_mul_area_le r.width r.height
      (1 + (rand - 1 / 2) * r.score * (2 / 5)) hw hh
    linarith [this]
  · rw [hww, hhh]
    constructor
    · intro he
      exact (warp_mul_area_eq_iff r.width r.height
        (1 + (rand - 1 / 2) * r.score * (2 / 5)) hw hh).mp (by linarith [he])
    · intro h1
      rw [h1]; ring

/-- Witness for C10 at a concrete room (score 0.7, 2×2, draw 0). -/
theorem claim_C10_witness :
    (3 / 5 < (7 / 10 : ℚ) ∧ 0 < (2 : ℚ) ∧ 0 < (2 : ℚ)) ∧
    (DecayEngine.applyEffectsRoom (fun _ s => s) (fun _ s => s) 0
        (mkRoom 1 "tech" 0 0 (7 / 10) 0 0)).width *
      (DecayEngine.applyEffectsRoom (fun _ s => s) (fun _ s => s) 0
        (mkRoom 1 "tech" 0 0 (7 / 10) 0 0)).height ≤
      (mkRoom 1 "tech" 0 0 (7 / 10) 0 0).width *
        (mkRoom 1 "tech" 0 0 (7 / 10) 0 0).height := by
  refine ⟨by norm_num, ?_⟩
  exact (claim_C10_warp_shrinks_area (fun _ s => s) (fun _ s => s) 0
    (mkRoom 1 "tech" 0 0 (7 / 10) 0 0) (by norm_num [mkRoom])
    (by norm_num [mkRoom]) (by norm_num [mkRoom])).2.2.1

/-! ## C4: the similarity range -/

/-- C4 counterexample: two rooms with sentiments 1 and −1 (both within
[−1,1]) and equal viralities, but different topics, get similarity −0.1,
which is outside [0,1] — the claimed range is wrong. -/
theorem claim_C4_counterexample :
    |(mkRoom 1 "tech" 1 0 0 0 0).sentiment| ≤ 1 ∧
    |(mkRoom 2 "culture" (-1) 0 0 0 0).sentiment| ≤ 1 ∧
    0 ≤ (mkRoom 1 "tech" 1 0 0 0 0).virality ∧
    0 ≤ (mkRoom 2 "culture" (-1) 0 0 0 0).virality ∧
    TopologyEngine.similarity (mkRoom 1 "tech" 1 0 0 0 0)
      (mkRoom 2 "culture" (-1) 0 0 0 0) < 0 := by
  decide

/-- Shared bound: for rooms with sentiments in [−1,1], `similarity` lies
within [−0.3, 1]. -/
theorem similarity_mem_range (a b : Room)
    (ha : |a.sentiment| ≤ 1) (hb : |b.sentiment| ≤ 1) :
    -(3 / 10) ≤ TopologyEngine.similarity a b ∧
      TopologyEngine.similarity a b ≤ 1 := by
  unfold TopologyEngine.similarity
  have hd0 : (0 : ℚ) ≤ |a.sentiment - b.sentiment| := abs_nonneg _
  have hd2 : |a.sentiment - b.sentiment| ≤ 2 := by
    calc |a.sentiment - b.sentiment| ≤ |a.sentiment| + |b.sentiment| :=
          abs_sub _ _
      _ ≤ 2 := by linarith
  have hv0 : (0 : ℚ) ≤ max 0 (1 - |a.virality - b.virality| / 5) :=
    le_max_left _ _
  have hv1 : max 0 (1 - |a.virality - b.virality| / 5) ≤ 1 := by
    have : (0 : ℚ) ≤ |a.virality - b.virality| := abs_nonneg _
    exact max_le (by norm_num) (by linarith)
  split_ifs <;> constructor <;> nlinarith

/-- C4 (amended): for rooms with sentiments in [−1,1] and viralities ≥ 0,
`similarity` lies within [−0.3, 1] (not [0,1]: the sentiment term can reach
−0.3 when topics differ). -/
theorem claim_C4_similarity_range (a b : Room)
    (ha : |a.sentiment| ≤ 1) (hb : |b.sentiment| ≤ 1)
    (hva : 0 ≤ a.virality) (hvb : 0 ≤ b.virality) :
    -(3 / 10) ≤ TopologyEngine.similarity a b ∧
      TopologyEngine.similarity a b ≤ 1 :=
  similarity_mem_range a b ha hb

/-- Witness for C4 (amended) at the concrete rooms of the counterexample. -/
theorem claim_C4_witness :
    -(3 / 10) ≤ TopologyEngine.similarity (mkRoom 1 "tech" 1 0 0 0 0)
        (mkRoom 2 "culture" (-1) 0 0 0 0) ∧
      TopologyEngine.similarity (mkRoom 1 "tech" 1 0 0 0 0)
        (mkRoom 2 "culture" (-1) 0 0 0 0) ≤ 1 :=
  claim_C4_similarity_range (mkRoom 1 "tech" 1 0 0 0 0)
    (mkRoom 2 "culture" (-1) 0 0 0 0) (by decide) (by decide) (by decide)
    (by decide)

/-! ## C1: score at one half-life -/

/-- Auxiliary: quantitative lower bound on `exp(−0.693)`.  Since the source
uses `0.693` instead of `ln 2`, `exp(−0.693) = exp(ln 2 − 0.693)/2 ≥
(1 + (ln 2 − 0.693))/2`, and `ln 2 − 0.693 > 1.4718·10⁻⁴`. -/
theorem exp_neg_693_lower :
    1 / 2 + 1 / 10 ^ 9 < Real.exp (-(693 / 1000)) := by
  have hlog : (0.6931471803 : ℝ) < Real.log 2 := Real.log_two_gt_d9
  have hsplit : Real.exp (-(693 / 1000 : ℝ)) =
      Real.exp (Real.log 2 - 693 / 1000) * Real.exp (-Real.log 2) := by
    rw [← Real.exp_add]; ring_nf
  have hinv : Real.exp (-Real.log 2) = 1 / 2 := by
    rw [Real.exp_neg, Real.exp_log (by norm_num : (0 : ℝ) < 2)]
    norm_num
  have hlb : Real.log 2 - 693 / 1000 + 1 ≤ Real.exp (Real.log 2 - 693 / 1000) :=
    Real.add_one_le_exp _
  rw [hsplit, hinv]
  nlinarith

/-- Auxiliary: quantitative upper bound on `exp(−0.693)`, via
`exp δ ≤ 1/(1−δ)` for `δ = ln 2 − 0.693 < 1.4719·10⁻⁴`. -/
theorem exp_neg_693_upper :
    Real.exp (-(693 / 1000)) < 1 / 2 + 1 / 10 ^ 4 := by
  have hlog : Real.log 2 < (0.6931471808 : ℝ) := Real.log_two_lt_d9
  have hlogpos : (0.6931471803 : ℝ) < Real.log 2 := Real.log_two_gt_d9
  have hdpos : 0 < Real.log 2 - 693 / 1000 := by
    norm_num at hlogpos ⊢; linarith
  have hdlt : Real.log 2 - 693 / 1000 < 14719 / 100000000 := by
    norm_num at hlog ⊢; linarith
  have hsplit : Real.exp (-(693 / 1000 : ℝ)) =
      Real.exp (Real.log 2 - 693 / 1000) * Real.exp (-Real.log 2) := by
    rw [← Real.exp_add]; ring_nf
  have hinv : Real.exp (-Real.log 2) = 1 / 2 := by
    rw [Real.exp_neg, Real.exp_log (by norm_num : (0 : ℝ) < 2)]
    norm_num
  have hepos : 0 < Real.exp (Real.log 2 - 693 / 1000) := Real.exp_pos _
  have hneg : 1 - (Real.log 2 - 693 / 1000) ≤
      (Real.exp (Real.log 2 - 693 / 1000))⁻¹ := by
    have h := Real.add_one_le_exp (-(Real.log 2 - 693 / 1000))
    rw [Real.exp_neg] at h
    linarith
  have hmul : Real.exp (Real.log 2 - 693 / 1000) *
      (1 - (Real.log 2 - 693 / 1000)) ≤ 1 := by
    have h := mul_le_mul_of_nonneg_left hneg (le_of_lt hepos)
    rw [mul_inv_cancel₀ (ne_of_gt hepos)] at h
    exact h
  have h1d : 0 < 1 - (Real.log 2 - 693 / 1000) := by linarith
  have hub : Real.exp (Real.log 2 - 693 / 1000) < 1 + 2 / 10000 := by
    nlinarith
  rw [hsplit, hinv]
  norm_num
  linarith

/-- C1 counterexample: at half-life 1 (seconds), creation time 0 and
`now = 1000` ms — i.e. elapsed exactly one half-life — the written score
differs from 0.5 by more than the claimed tolerance 10⁻⁹ (the source decays
with the constant 0.693, not ln 2). -/
theorem claim_C1_counterexample :
    1 / 10 ^ 9 < |DecayEngine.tickScore 1 0 1000 - 1 / 2| := by
  have harg : DecayEngine.tickScore 1 0 1000 =
      min 1 (1 - Real.exp (-(693 / 1000))) := by
    unfold DecayEngine.tickScore
    norm_num
  have hlb := exp_neg_693_lower
  have hub := exp_neg_693_upper
  have hmin : min (1 : ℝ) (1 - Real.exp (-(693 / 1000))) =
      1 - Real.exp (-(693 / 1000)) := by
    have := Real.exp_pos (-(693 / 1000 : ℝ))
    exact min_eq_right (by linarith)
  rw [harg, hmin]
  rw [abs_of_nonpos (by linarith)]
  linarith

/-- C1 (amended): when the elapsed time equals the half-life, the score the
source computes is 0.5 within tolerance 10⁻⁴ (not 10⁻⁹: the deviation is
`exp(−0.693) − 1/2 ≈ 7.4·10⁻⁵`, because the source's decay constant is the
truncated `0.693`). -/
theorem claim_C1_score_at_half_life (H ca now : ℝ) (hH : 0 < H)
    (he : (now - ca) / 1000 = H) :
    |DecayEngine.tickScore H ca now - 1 / 2| ≤ 1 / 10 ^ 4 := by
  have harg : DecayEngine.tickScore H ca now =
      min 1 (1 - Real.exp (-(693 / 1000))) := by
    unfold DecayEngine.tickScore
    rw [he]
    rw [mul_div_assoc, div_self (ne_of_gt hH), mul_one]
  have hlb := exp_neg_693_lower
  have hub := exp_neg_693_upper
  have hmin : min (1 : ℝ) (1 - Real.exp (-(693 / 1000))) =
      1 - Real.exp (-(693 / 1000)) := by
    have := Real.exp_pos (-(693 / 1000 : ℝ))
    exact min_eq_right (by linarith)
  rw [harg, hmin]
  rw [abs_of_nonpos (by linarith)]
  linarith

/-- Witness for C1 (amended): half-life 1 s, created at 0, queried at
1000 ms. -/
theorem claim_C1_witness :
    (0 < (1 : ℝ)) ∧ ((1000 - 0) / 1000 = (1 : ℝ)) ∧
      |DecayEngine.tickScore 1 0 1000 - 1 / 2| ≤ 1 / 10 ^ 4 :=
  ⟨by norm_num, by norm_num,
    claim_C1_score_at_half_life 1 0 1000 (by norm_num) (by norm_num)⟩

/-! ## C3: monotonicity and range of the decay score -/

/-- C3 counterexample: for a room created at `t = 1000` ms with half-life 1,
querying `tick` at `now1 = now2 = 0` (an admissible instance of
"all times now1 ≤ now2") writes a negative score, outside the claimed
range [0,1]. -/
theorem claim_C3_counterexample :
    (0 : ℝ) ≤ 0 ∧ DecayEngine.tickScore 1 1000 0 < 0 := by
  refine ⟨le_refl 0, ?_⟩
  have harg : DecayEngine.tickScore 1 1000 0 =
      min 1 (1 - Real.exp (693 / 1000)) := by
    unfold DecayEngine.tickScore
    norm_num
  have hgt : (1 : ℝ) < Real.exp (693 / 1000) := by
    have h := Real.exp_lt_exp.mpr (show (0 : ℝ) < 693 / 1000 by norm_num)
    rwa [Real.exp_zero] at h
  rw [harg]
  have : min (1 : ℝ) (1 - Real.exp (693 / 1000)) ≤ 1 - Real.exp (693 / 1000) :=
    min_le_right _ _
  linarith

/-- C3 (amended): for a room with positive half-life and times at or after
its creation time, the written score is monotone in `now` and always lies
within [0,1].  (The original claim quantified over *all* times; for
`now < createdAt` the source writes a negative score, see the
counterexample.) -/
theorem claim_C3_monotone_and_bounded (H ca now1 now2 : ℝ) (hH : 0 < H)
    (h1 : ca ≤ now1) (h12 : now1 ≤ now2) :
    DecayEngine.tickScore H ca now1 ≤ DecayEngine.tickScore H ca now2 ∧
    0 ≤ DecayEngine.tickScore H ca now1 ∧
    DecayEngine.tickScore H ca now1 ≤ 1 ∧
    0 ≤ DecayEngine.tickScore H ca now2 ∧
    DecayEngine.tickScore H ca now2 ≤ 1 := by
  have hbound : ∀ now : ℝ, ca ≤ now →
      0 ≤ DecayEngine.tickScore H ca now ∧ DecayEngine.tickScore H ca now ≤ 1 := by
    intro now hca
    unfold DecayEngine.tickScore
    constructor
    · have harg : -(693 / 1000) * ((now - ca) / 1000) / H ≤ 0 := by
        apply div_nonpos_of_nonpos_of_nonneg
        · have : (0 : ℝ) ≤ (now - ca) / 1000 := by linarith
          nlinarith
        · linarith
      have hexp : Real.exp (-(693 / 1000) * ((now - ca) / 1000) / H) ≤ 1 := by
        have := Real.exp_le_exp.mpr harg
        rwa [Real.exp_zero] at this
      exact le_min (by norm_num) (by linarith)
    · exact min_le_left _ _
  have hmono : DecayEngine.tickScore H ca now1 ≤ DecayEngine.tickScore H ca now2 := by
    unfold DecayEngine.tickScore
    apply min_le_min (le_refl 1)
    have harg : -(693 / 1000) * ((now2 - ca) / 1000) / H ≤
        -(693 / 1000) * ((now1 - ca) / 1000) / H := by
      have hnum : -(693 / 1000) * ((now2 - ca) / 1000) ≤
          -(693 / 1000) * ((now1 - ca) / 1000) := by linarith
      exact (div_le_div_right hH).mpr hnum
    have hexp := Real.exp_le_exp.mpr harg
    linarith
  exact ⟨hmono, (hbound now1 h1).1, (hbound now1 h1).2,
    (hbound now2 (le_trans h1 h12)).1, (hbound now2 (le_trans h1 h12)).2⟩

/-- Witness for C3 (amended): half-life 1, created at 0, times 500 ≤ 1000. -/
theorem claim_C3_witness :
    (0 < (1 : ℝ)) ∧ ((0 : ℝ) ≤ 500) ∧ ((500 : ℝ) ≤ 1000) ∧
    (DecayEngine.tickScore 1 0 500 ≤ DecayEngine.tickScore 1 0 1000 ∧
      0 ≤ DecayEngine.tickScore 1 0 500 ∧
      DecayEngine.tickScore 1 0 500 ≤ 1 ∧
      0 ≤ DecayEngine.tickScore 1 0 1000 ∧
      DecayEngine.tickScore 1 0 1000 ≤ 1) :=
  ⟨by norm_num, by norm_num, by norm_num,
    claim_C3_monotone_and_bounded 1 0 500 1000 (by norm_num) (by norm_num)
      (by norm_num)⟩

/-! ## C8: inhabitants with no topic-matching room -/

/-- `wanderOne` is the identity when no room matches any of the entity's
topics. -/
theorem wanderOne_no_match (rooms : List Room) (pick : ℕ) (now : ℚ)
    (e : Entity) (hm : ∀ r ∈ rooms, r.topic ∉ e.topics) :
    EntityTracker.wanderOne rooms pick now e = e := by
  unfold EntityTracker.wanderOne
  have hfil : rooms.filter (fun r => r.topic ∈ e.topics) = [] := by
    apply List.filter_eq_nil.mpr
    intro r hr
    simpa using hm r hr
  rw [hfil]
  rfl

/-- The entity fixture of the C8 theorems: tracks topic "tech" and is
currently assigned to room 7. -/
def entC8 : Entity :=
  { id := "entity_x", name := "x", etype := "concept", topics := ["tech"],
    appearances := 1, firstSeen := 0, lastSeen := 0, strength := 1 / 2,
    currentRoom := some 7, recentContexts := [], history := [] }

/-- C8 counterexample: with an empty room list (so no room matches the
entity's topics), `wander` keeps the inhabitant — but its assignment stays
`some 7`, it is *not* reset to null. -/
theorem claim_C8_counterexample :
    (∀ r ∈ ([] : List Room), r.topic ∉ entC8.topics) ∧
    (EntityTracker.wander [] (fun _ => 0) 0 [entC8]).map
        (fun e => e.currentRoom) = [some 7] := by
  constructor
  · intro r hr
    exact absurd hr (List.not_mem_nil r)
  · decide

/-- C8 (amended): an inhabitant none of whose topics matches any supplied
room survives `wander` entirely unchanged — in particular its current room
assignment keeps its previous value (which is null only if it already was). -/
theorem claim_C8_unmatched_entity_unchanged (rooms : List Room)
    (pick : ℕ → ℕ) (now : ℚ) (entities : List Entity) (i : ℕ)
    (hi : i < entities.length)
    (hm : ∀ r ∈ rooms, r.topic ∉ (entities.get ⟨i, hi⟩).topics) :
    (EntityTracker.wander rooms pick now entities).length = entities.length ∧
    ∃ hj : i < (EntityTracker.wander rooms pick now entities).length,
      (EntityTracker.wander rooms pick now entities).get ⟨i, hj⟩ =
        entities.get ⟨i, hi⟩ := by
  have hlen : (EntityTracker.wander rooms pick now entities).length =
      entities.length := by
    unfold EntityTracker.wander
    simp [List.enum_length]
  refine ⟨hlen, ⟨hlen ▸ hi, ?_⟩⟩
  unfold EntityTracker.wander
  rw [List.get_map]
  have henum : (entities.enum).get ⟨i, by simpa [List.enum_length] using hi⟩ =
      (i, entities.get ⟨i, hi⟩) := by
    apply List.get_enum
  rw [henum]
  exact wanderOne_no_match rooms (pick i) now _ hm

/-- Witness for C8 (amended) at the concrete fixture. -/
theorem claim_C8_witness :
    (EntityTracker.wander [] (fun _ => 0) 0 [entC8]).length = 1 ∧
    ∃ hj : 0 < (EntityTracker.wander [] (fun _ => 0) 0 [entC8]).length,
      (EntityTracker.wander [] (fun _ => 0) 0 [entC8]).get ⟨0, hj⟩ =
        ([entC8] : List Entity).get ⟨0, by norm_num⟩ :=
  claim_C8_unmatched_entity_unchanged [] (fun _ => 0) 0 [entC8] 0 (by norm_num)
    (by intro r hr; exact absurd hr (List.not_mem_nil r))

/-! ## C7: the prune partition -/

namespace PruneEngine

/-- A stale, high-entropy room lands in the pruned list. -/
theorem pruneSplit_mem_pruned (cyc stale : ℕ) (rooms : List Room) (r : Room)
    (hr : r ∈ rooms) (hage : age cyc r ≥ (stale : ℤ)) (hsc : r.score ≥ 3 / 5) :
    r ∈ (pruneSplit cyc stale rooms).2 := by
  induction rooms with
  | nil => exact absurd hr (List.not_mem_nil r)
  | cons a rooms ih =>
      rcases List.mem_cons.mp hr with rfl | hmem
      · simp only [pruneSplit]
        rw [if_pos ⟨hage, hsc⟩]
        exact List.mem_cons_self _ _
      · simp only [pruneSplit]
        split_ifs with h1 h2
        · exact List.mem_cons_of_mem _ (ih hmem)
        · exact ih hmem
        · exact ih hmem

/-- A stale, moderately-decayed room is kept with the +0.15 boost capped
at 1. -/
theorem pruneSplit_mem_boosted (cyc stale : ℕ) (rooms : List Room) (r : Room)
    (hr : r ∈ rooms) (hage : age cyc r ≥ (stale : ℤ)) (hlo : 2 / 5 ≤ r.score)
    (hhi : r.score < 3 / 5) :
    { r with score := min 1 (r.score + 15 / 100) } ∈
      (pruneSplit cyc stale rooms).1 := by
  induction rooms with
  | nil => exact absurd hr (List.not_mem_nil r)
  | cons a rooms ih =>
      rcases List.mem_cons.mp hr with rfl | hmem
      · simp only [pruneSplit]
        rw [if_neg (by rintro ⟨-, hs⟩; linarith), if_pos ⟨hage, hlo⟩]
        exact List.mem_cons_self _ _
      · simp only [pruneSplit]
        split_ifs with h1 h2
        · exact ih hmem
        · exact List.mem_cons_of_mem _ (ih hmem)
        · exact List.mem_cons_of_mem _ (ih hmem)

/-- A non-stale room is kept untouched, whatever its score. -/
theorem pruneSplit_mem_fresh (cyc stale : ℕ) (rooms : List Room) (r : Room)
    (hr : r ∈ rooms) (hage : age cyc r < (stale : ℤ)) :
    r ∈ (pruneSplit cyc stale rooms).1 := by
  induction rooms with
  | nil => exact absurd hr (List.not_mem_nil r)
  | cons a rooms ih =>
      rcases List.mem_cons.mp hr with rfl | hmem
      · simp only [pruneSplit]
        rw [if_neg (by rintro ⟨ha, -⟩; linarith),
          if_neg (by rintro ⟨ha, -⟩; linarith)]
        exact List.mem_cons_self _ _
      · simp only [pruneSplit]
        split_ifs with h1 h2
        · exact ih hmem
        · exact List.mem_cons_of_mem _ (ih hmem)
        · exact List.mem_cons_of_mem _ (ih hmem)

/-- The two halves of the split are a permutation of the input (on ids). -/
theorem pruneSplit_perm (cyc stale : ℕ) (rooms : List Room) :
    ((pruneSplit cyc stale rooms).1.map (fun r => r.id) ++
      (pruneSplit cyc stale rooms).2.map (fun r => r.id)).Perm
      (rooms.map (fun r => r.id)) := by
  induction rooms with
  | nil => simp [pruneSplit]
  | cons a rooms ih =>
      simp only [pruneSplit]
      split_ifs with h1 h2
      · simp only [List.map_cons, List.map_cons]
        exact List.Perm.trans List.perm_middle (ih.cons a.id)
      · simp only [List.map_cons, List.cons_append]
        exact ih.cons a.id
      · simp only [List.map_cons, List.cons_append]
        exact ih.cons a.id

end PruneEngine

namespace PruneEngine

/-- `pushTrace` only touches the trace FIFO: id and score are unchanged. -/
theorem pushTrace_idScore (tr : Trace) (r : Room) :
    ((pushTrace tr r).id, (pushTrace tr r).score) = (r.id, r.score) := by
  simp [pushTrace]

/-- `updateFirst` with a trace push preserves every room's id and score. -/
theorem updateFirst_map_idScore (p : Room → Prop) [DecidablePred p]
    (tr : Trace) (l : List Room) :
    (updateFirst p (pushTrace tr) l).map (fun r => (r.id, r.score)) =
      l.map (fun r => (r.id, r.score)) := by
  induction l with
  | nil => rfl
  | cons a l ih =>
      simp only [updateFirst]
      split_ifs with h
      · simp [pushTrace_idScore]
      · simp [ih]

/-- Folding trace distribution over neighbor ids preserves ids and scores. -/
theorem foldl_updateFirst_map_idScore (tr : Trace) (nids : List ℕ)
    (ks : List Room) :
    ((nids.foldl (fun ks nid =>
        updateFirst (fun r => r.id = nid) (pushTrace tr) ks) ks).map
      (fun r => (r.id, r.score))) = ks.map (fun r => (r.id, r.score)) := by
  induction nids generalizing ks with
  | nil => rfl
  | cons n nids ih =>
      simp only [List.foldl_cons]
      rw [ih, updateFirst_map_idScore]

/-- `pruneOne` preserves the kept rooms' ids and scores. -/
theorem pruneOne_map_idScore (now : ℚ) (cyc : ℕ) (corridors : List Corridor)
    (prunedIds : List ℕ) (pickA : ℕ) (room : Room) (kept : List Room) :
    ((pruneOne now cyc corridors prunedIds pickA room kept).1).map
        (fun r => (r.id, r.score)) =
      kept.map (fun r => (r.id, r.score)) := by
  unfold pruneOne
  simp only []
  split_ifs with h1 h2
  · rw [updateFirst_map_idScore, foldl_updateFirst_map_idScore]
  · rw [foldl_updateFirst_map_idScore]
  · rw [foldl_updateFirst_map_idScore]

/-- `pruneAll` preserves the kept rooms' ids and scores. -/
theorem pruneAll_map_idScore (now : ℚ) (cyc : ℕ) (corridors : List Corridor)
    (prunedIds : List ℕ) (pickA : ℕ → ℕ) (toPrune : List Room) (k : ℕ)
    (kept : List Room) :
    ((pruneAll now cyc corridors prunedIds pickA toPrune k kept).1).map
        (fun r => (r.id, r.score)) =
      kept.map (fun r => (r.id, r.score)) := by
  induction toPrune generalizing k kept with
  | nil => rfl
  | cons room rest ih =>
      simp only [pruneAll]
      rw [ih, pruneOne_map_idScore]

end PruneEngine

/-- C7: with `staleCycles = 5`, `prune` prunes exactly the stale
(age ≥ 5) high-entropy (score ≥ 0.6) rooms; a stale room with score in
[0.4, 0.6) is kept with its score boosted by +0.15 capped at 1; a room of
age < 5 is kept with its score untouched; and the kept and pruned rooms
together are exactly the input rooms. -/
theorem claim_C7_prune_partition (st : WorldState) (now : ℚ)
    (pickA : ℕ → ℕ) :
    (∀ r ∈ st.rooms, PruneEngine.age st.observationCycles r ≥ 5 →
        r.score ≥ 3 / 5 → r ∈ (PruneEngine.prune now pickA st 5).pruned) ∧
    (∀ r ∈ st.rooms, PruneEngine.age st.observationCycles r ≥ 5 →
        2 / 5 ≤ r.score → r.score < 3 / 5 →
        ∃ r' ∈ (PruneEngine.prune now pickA st 5).kept,
          r'.id = r.id ∧ r'.score = min 1 (r.score + 15 / 100)) ∧
    (∀ r ∈ st.rooms, PruneEngine.age st.observationCycles r < 5 →
        ∃ r' ∈ (PruneEngine.prune now pickA st 5).kept,
          r'.id = r.id ∧ r'.score = r.score) ∧
    (PruneEngine.prune now pickA st 5).kept.length +
        (PruneEngine.prune now pickA st 5).pruned.length =
      st.rooms.length ∧
    ((PruneEngine.prune now pickA st 5).kept.map (fun r => r.id) ++
        (PruneEngine.prune now pickA st 5).pruned.map (fun r => r.id)).Perm
      (st.rooms.map (fun r => r.id)) := by
  have hkept : (PruneEngine.prune now pickA st 5).kept.map
      (fun r => (r.id, r.score)) =
      (PruneEngine.pruneSplit st.observationCycles 5 st.rooms).1.map
        (fun r => (r.id, r.score)) := by
    unfold PruneEngine.prune
    exact PruneEngine.pruneAll_map_idScore _ _ _ _ _ _ _ _
  have hpruned : (PruneEngine.prune now pickA st 5).pruned =
      (PruneEngine.pruneSplit st.observationCycles 5 st.rooms).2 := rfl
  have hkeptIds : (PruneEngine.prune now pickA st 5).kept.map (fun r => r.id) =
      (PruneEngine.pruneSplit st.observationCycles 5 st.rooms).1.map
        (fun r => r.id) := by
    have h1 : (PruneEngine.prune now pickA st 5).kept.map (fun r => r.id) =
        ((PruneEngine.prune now pickA st 5).kept.map
          (fun r => (r.id, r.score))).map Prod.fst := by
      simp [List.map_map, Function.comp]
    have h2 : (PruneEngine.pruneSplit st.observationCycles 5 st.rooms).1.map
        (fun r => r.id) =
        ((PruneEngine.pruneSplit st.observationCycles 5 st.rooms).1.map
          (fun r => (r.id, r.score))).map Prod.fst := by
      simp [List.map_map, Function.comp]
    rw [h1, h2, hkept]
  refine ⟨?_, ?_, ?_, ?_, ?_⟩
  · intro r hr hage hsc
    rw [hpruned]
    exact PruneEngine.pruneSplit_mem_pruned _ _ _ _ hr (by exact_mod_cast hage) hsc
  · intro r hr hage hlo hhi
    have hmem := PruneEngine.pruneSplit_mem_boosted st.observationCycles 5
      st.rooms r hr (by exact_mod_cast hage) hlo hhi
    have hpair : (r.id, min 1 (r.score + 15 / 100)) ∈
        (PruneEngine.prune now pickA st 5).kept.map
          (fun r => (r.id, r.score)) := by
      rw [hkept]
      exact List.mem_map.mpr ⟨_, hmem, rfl⟩
    rcases List.mem_map.mp hpair with ⟨r', hr', hpr⟩
    exact ⟨r', hr', congrArg Prod.fst hpr, congrArg Prod.snd hpr⟩
  · intro r hr hage
    have hmem := PruneEngine.pruneSplit_mem_fresh st.observationCycles 5
      st.rooms r hr (by exact_mod_cast hage)
    have hpair : (r.id, r.score) ∈
        (PruneEngine.prune now pickA st 5).kept.map
          (fun r => (r.id, r.score)) := by
      rw [hkept]
      exact List.mem_map.mpr ⟨_, hmem, rfl⟩
    rcases List.mem_map.mp hpair with ⟨r', hr', hpr⟩
    exact ⟨r', hr', congrArg Prod.fst hpr, congrArg Prod.snd hpr⟩
  · have hperm := PruneEngine.pruneSplit_perm st.observationCycles 5 st.rooms
    have hlen := hperm.length_eq
    simp only [List.length_append, List.length_map] at hlen
    have hk : (PruneEngine.prune now pickA st 5).kept.length =
        (PruneEngine.pruneSplit st.observationCycles 5 st.rooms).1.length := by
      have := congrArg List.length hkeptIds
      simpa using this
    rw [hk, hpruned]
    simpa using hlen
  · rw [hkeptIds, hpruned]
    exact PruneEngine.pruneSplit_perm st.observationCycles 5 st.rooms

/-- The Scenario-B world of the C7 witness: cycle 5 with three rooms —
age 5 / score 0.6, age 5 / score 0.5, and age 3 / score 0.9. -/
def stC7 : WorldState :=
  { version := 2, createdAt := 0, lastUpdate := none, observationCycles := 5,
    rooms := [mkRoom 1 "tech" 0 0 (3 / 5) 0 0, mkRoom 2 "tech" 0 0 (1 / 2) 0 0,
      mkRoom 3 "tech" 0 0 (9 / 10) 2 2],
    corridors := [], artifacts := [], entities := [], events := [],
    memory := ⟨[], [], 50⟩, stats := ⟨0, 0, [], 0, 0⟩ }

/-- Witness for C7 on the Scenario-B world: the age-5/score-0.6 room is
pruned, the age-5/score-0.5 room is kept at 0.65, the age-3 room is kept
untouched, and kept + pruned = 3 rooms. -/
theorem claim_C7_witness :
    mkRoom 1 "tech" 0 0 (3 / 5) 0 0 ∈
      (PruneEngine.prune 0 (fun _ => 0) stC7 5).pruned ∧
    (∃ r' ∈ (PruneEngine.prune 0 (fun _ => 0) stC7 5).kept,
      r'.id = (mkRoom 2 "tech" 0 0 (1 / 2) 0 0).id ∧
      r'.score = min 1 ((mkRoom 2 "tech" 0 0 (1 / 2) 0 0).score + 15 / 100)) ∧
    (∃ r' ∈ (PruneEngine.prune 0 (fun _ => 0) stC7 5).kept,
      r'.id = (mkRoom 3 "tech" 0 0 (9 / 10) 2 2).id ∧
      r'.score = (mkRoom 3 "tech" 0 0 (9 / 10) 2 2).score) ∧
    (PruneEngine.prune 0 (fun _ => 0) stC7 5).kept.length +
      (PruneEngine.prune 0 (fun _ => 0) stC7 5).pruned.length = 3 := by
  have h := claim_C7_prune_partition stC7 0 (fun _ => 0)
  exact ⟨h.1 _ (by decide) (by decide) (by decide),
    h.2.1 _ (by decide) (by decide) (by decide) (by decide),
    h.2.2.1 _ (by decide) (by decide),
    h.2.2.2.1⟩

/-! ## C5/C6: corridor generation invariants -/

namespace TopologyEngine

/-- The canonical unordered pair of a recorded corridor. -/
def canonPair (c : Corridor) : ℕ × ℕ :=
  canonKey c.fromId c.toId

/-- Edge symmetry: every recorded corridor is present in both endpoints'
connection arrays. -/
def Sym (st : TopoState) : Prop :=
  ∀ c ∈ st.corridors, c.toId ∈ st.conns c.fromId ∧ c.fromId ∈ st.conns c.toId

/-- The internal invariant of corridor generation: symmetry, the key set
mirrors the recorded corridors, and no key repeats. -/
def Good (st : TopoState) : Prop :=
  Sym st ∧ st.keys = st.corridors.map canonPair ∧ st.keys.Nodup

/-- Reachability by a sequence of `addCorridor` applications; every pass of
`generateCorridors` only modifies the state through `addCorridor`. -/
inductive Steps : TopoState → TopoState → Prop
  | refl (st : TopoState) : Steps st st
  | snoc (st st' : TopoState) (a b : Room) (s : ℚ) :
      Steps st st' → Steps st (addCorridor a b s st')

theorem Steps.trans {s1 s2 s3 : TopoState} (h1 : Steps s1 s2)
    (h2 : Steps s2 s3) : Steps s1 s3 := by
  induction h2 with
  | refl => exact h1
  | snoc st' a b s hsteps ih => exact Steps.snoc _ _ _ _ _ ih

theorem addCorridor_conns_mono (a b : Room) (s : ℚ) (st : TopoState)
    (i x : ℕ) (hx : x ∈ st.conns i) : x ∈ (addCorridor a b s st).conns i := by
  simp only [addCorridor]
  split_ifs with h
  · exact hx
  · exact List.mem_append_left _ (List.mem_append_left _ hx)

theorem steps_conns_mono {st st' : TopoState} (h : Steps st st') (i x : ℕ)
    (hx : x ∈ st.conns i) : x ∈ st'.conns i := by
  induction h with
  | refl => exact hx
  | snoc s2 a b s hsteps ih => exact addCorridor_conns_mono a b s s2 i x ih

theorem steps_conns_ne_nil {st st' : TopoState} (h : Steps st st') (i : ℕ)
    (hne : st.conns i ≠ []) : st'.conns i ≠ [] := by
  rcases List.exists_mem_of_ne_nil _ hne with ⟨x, hx⟩
  exact List.ne_nil_of_mem (steps_conns_mono h i x hx)

theorem addCorridor_good (a b : Room) (s : ℚ) (st : TopoState)
    (hG : Good st) : Good (addCorridor a b s st) := by
  obtain ⟨hsym, hkeys, hnodup⟩ := hG
  simp only [addCorridor]
  split_ifs with h
  · exact ⟨hsym, hkeys, hnodup⟩
  · refine ⟨?_, ?_, ?_⟩
    · intro c hc
      simp only [] at hc
      rcases List.mem_append.mp hc with hold | hnew
      · obtain ⟨h1, h2⟩ := hsym c hold
        constructor
        · exact List.mem_append_left _ (List.mem_append_left _ h1)
        · exact List.mem_append_left _ (List.mem_append_left _ h2)
      · have hceq : c = ⟨a.id, b.id, s, 1 + s * 3, max 2 ((1 - s) * 10), 0⟩ :=
          List.mem_singleton.mp hnew
        subst hceq
        constructor
        · simp
        · simp
    · simp only [List.map_append, List.map_cons, List.map_nil]
      rw [hkeys]
      rfl
    · simp only []
      rw [List.nodup_append]
      exact ⟨hnodup, List.nodup_singleton _,
        by simpa [List.disjoint_singleton] using h⟩

theorem steps_good {st st' : TopoState} (h : Steps st st') (hG : Good st) :
    Good st' := by
  induction h with
  | refl => exact hG
  | snoc s2 a b s hsteps ih => exact addCorridor_good a b s s2 ih

end TopologyEngine

namespace TopologyEngine

theorem firstConnect_steps (room : Room) (threshold : ℚ) (l : List Room)
    (st : TopoState) : Steps st (firstConnect room threshold l st).1 := by
  induction l generalizing st with
  | nil => exact Steps.refl st
  | cons o os ih =>
      simp only [firstConnect]
      split_ifs with h
      · exact Steps.snoc _ _ _ _ _ (Steps.refl st)
      · exact ih st

theorem crossTopics_steps (room : Room) (myTopic : String) (threshold : ℚ)
    (shuffle : ℕ → List Room → List Room)
    (groups : List (String × List Room)) (cnt k : ℕ) (st : TopoState) :
    Steps st (crossTopics room myTopic threshold shuffle groups cnt k st).1 := by
  induction groups generalizing cnt k st with
  | nil => exact Steps.refl st
  | cons tg rest ih =>
      rcases tg with ⟨t, others⟩
      by_cases h : t = myTopic ∨ cnt ≥ 3
      · simp only [crossTopics, if_pos h]
        exact Steps.refl st
      · simp only [crossTopics, if_neg h]
        exact (firstConnect_steps room threshold _ st).trans (ih _ _ _)

theorem crossRoom_steps (threshold : ℚ)
    (shuffle : ℕ → List Room → List Room)
    (groups : List (String × List Room)) (room : Room) (k : ℕ)
    (st : TopoState) :
    Steps st (crossRoom threshold shuffle groups room k st).1 := by
  unfold crossRoom
  split_ifs with h
  · exact Steps.refl st
  · exact crossTopics_steps room room.topic threshold shuffle groups 0 k st

theorem crossGroup_steps (threshold : ℚ)
    (shuffle : ℕ → List Room → List Room)
    (groups : List (String × List Room)) (l : List Room) (k : ℕ)
    (st : TopoState) :
    Steps st (crossGroup threshold shuffle groups l k st).1 := by
  induction l generalizing k st with
  | nil => exact Steps.refl st
  | cons r rs ih =>
      simp only [crossGroup]
      exact (crossRoom_steps threshold shuffle groups r k st).trans (ih _ _)

theorem crossPass_steps (threshold : ℚ)
    (shuffle : ℕ → List Room → List Room)
    (groups rest : List (String × List Room)) (k : ℕ) (st : TopoState) :
    Steps st (crossPass threshold shuffle groups rest k st).1 := by
  induction rest generalizing k st with
  | nil => exact Steps.refl st
  | cons tg rest ih =>
      rcases tg with ⟨t, g⟩
      simp only [crossPass]
      exact (crossGroup_steps threshold shuffle groups g k st).trans (ih _ _)

theorem intraOne_steps (threshold : ℚ) (g : Room) (rest : List Room)
    (st : TopoState) : Steps st (intraOne threshold g rest st) := by
  simp only [intraOne]
  generalize (List.take 5
    (sortDesc (List.map (fun o => (o, similarity g o)) rest))) = l
  induction l generalizing st with
  | nil => exact Steps.refl st
  | cons p ps ih =>
      simp only [List.foldl_cons]
      by_cases h : p.2 ≥ threshold
      · rw [if_pos h]
        exact (Steps.snoc _ _ _ _ _ (Steps.refl st)).trans (ih _)
      · rw [if_neg h]
        exact ih st

theorem intraGroup_steps (threshold : ℚ) (l : List Room) (st : TopoState) :
    Steps st (intraGroup threshold l st) := by
  induction l generalizing st with
  | nil => exact Steps.refl st
  | cons g rest ih =>
      simp only [intraGroup]
      exact (intraOne_steps threshold g rest st).trans (ih _)

theorem intraPass_steps (threshold : ℚ)
    (groups : List (String × List Room)) (st : TopoState) :
    Steps st (groups.foldl (fun s tg => intraGroup threshold tg.2 s) st) := by
  induction groups generalizing st with
  | nil => exact Steps.refl st
  | cons tg rest ih =>
      simp only [List.foldl_cons]
      exact (intraGroup_steps threshold tg.2 st).trans (ih _)

theorem steps_match_findBest (room : Room) (st : TopoState)
    (p : Option Room × ℚ) :
    Steps st (match p with
      | (some b, bs) => addCorridor room b bs st
      | (none, _) => st) := by
  rcases p with ⟨ob, bs⟩
  cases ob with
  | none => exact Steps.refl st
  | some b => exact Steps.snoc _ _ _ _ _ (Steps.refl st)

theorem repairOne_steps (rooms : List Room) (room : Room) (st : TopoState) :
    Steps st (repairOne rooms room st) := by
  unfold repairOne
  split_ifs with h
  · exact steps_match_findBest room st _
  · exact Steps.refl st

theorem repairPass_steps (rooms l : List Room) (st : TopoState) :
    Steps st (repairPass rooms l st) := by
  induction l generalizing st with
  | nil => exact Steps.refl st
  | cons r rs ih =>
      simp only [repairPass]
      exact (repairOne_steps rooms r st).trans (ih _)

theorem generateCorridors_steps (shuffle : ℕ → List Room → List Room)
    (threshold : ℚ) (rooms : List Room) :
    Steps ⟨[], [], fun _ => []⟩
      (generateCorridors shuffle threshold rooms) := by
  unfold generateCorridors
  exact ((intraPass_steps threshold (byTopicList rooms) _).trans
    (crossPass_steps threshold shuffle (byTopicList rooms)
      (byTopicList rooms) 0 _)).trans (repairPass_steps rooms rooms _)

theorem good_init : Good ⟨[], [], fun _ => []⟩ :=
  ⟨fun c hc => absurd hc (List.not_mem_nil c), rfl, List.nodup_nil⟩

theorem generateCorridors_good (shuffle : ℕ → List Room → List Room)
    (threshold : ℚ) (rooms : List Room) :
    Good (generateCorridors shuffle threshold rooms) :=
  steps_good (generateCorridors_steps shuffle threshold rooms) good_init

end TopologyEngine

/-- C6: after every run of corridor generation — for any random sampling and
any insertion order it induces — every recorded corridor appears in both
endpoints' connection sets, and no unordered pair of rooms is recorded
twice (the canonical pair keys of the corridor list are pairwise
distinct). -/
theorem claim_C6_edge_symmetry_no_duplicates
    (shuffle : ℕ → List Room → List Room) (threshold : ℚ)
    (rooms : List Room) :
    (∀ c ∈ (TopologyEngine.generateCorridors shuffle threshold rooms).corridors,
      c.toId ∈ (TopologyEngine.generateCorridors shuffle threshold rooms).conns
          c.fromId ∧
      c.fromId ∈ (TopologyEngine.generateCorridors shuffle threshold rooms).conns
          c.toId) ∧
    ((TopologyEngine.generateCorridors shuffle threshold rooms).corridors.map
      TopologyEngine.canonPair).Nodup := by
  obtain ⟨hsym, hkeys, hnodup⟩ :=
    TopologyEngine.generateCorridors_good shuffle threshold rooms
  exact ⟨hsym, hkeys ▸ hnodup⟩

namespace TopologyEngine

/-- Once `findBest` holds a candidate, it never loses it. -/
theorem findBest_isSome (room : Room) (l : List Room) (b : Room) (bs : ℚ) :
    (findBest room l (some b, bs)).1.isSome := by
  induction l generalizing b bs with
  | nil => rfl
  | cons o os ih =>
      simp only [findBest]
      split_ifs with h1 h2
      · exact ih b bs
      · exact ih o (similarity room o)
      · exact ih b bs

/-- If `findBest` found nothing, every non-self candidate similarity is at
most the running bound. -/
theorem findBest_none_le (room : Room) (l : List Room) (bs : ℚ)
    (h : (findBest room l (none, bs)).1 = none) :
    ∀ o ∈ l, o.id ≠ room.id → similarity room o ≤ bs := by
  induction l generalizing bs with
  | nil =>
      intro o ho
      exact absurd ho (List.not_mem_nil o)
  | cons o os ih =>
      intro o' ho' hne
      simp only [findBest] at h
      by_cases hid : o.id = room.id
      · rw [if_pos hid] at h
        rcases List.mem_cons.mp ho' with rfl | hmem
        · exact absurd hid hne
        · exact ih bs h o' hmem hne
      · rw [if_neg hid] at h
        by_cases hgt : similarity room o > bs
        · rw [if_pos hgt] at h
          have hsome := findBest_isSome room os o (similarity room o)
          rw [h] at hsome
          exact absurd hsome (by simp)
        · rw [if_neg hgt] at h
          rcases List.mem_cons.mp ho' with rfl | hmem
          · exact le_of_not_lt hgt
          · exact ih bs h o' hmem hne

/-- A list of length ≥ 2 with pairwise-distinct ids has a member whose id
differs from any given id. -/
theorem exists_mem_ne_id (l : List Room)
    (hn : (l.map (fun r => r.id)).Nodup) (h2 : 2 ≤ l.length) (rid : ℕ) :
    ∃ o ∈ l, o.id ≠ rid := by
  rcases l with - | ⟨a, l⟩
  · simp at h2
  rcases l with - | ⟨b, t⟩
  · simp at h2
  by_cases ha : a.id = rid
  · refine ⟨b, List.mem_cons_of_mem _ (List.mem_cons_self _ _), ?_⟩
    intro hb
    have hn' : (a.id :: List.map (fun r => r.id) (b :: t)).Nodup := by
      simpa only [List.map_cons] using hn
    have hnot : a.id ∉ (b :: t).map (fun r => r.id) :=
      (List.nodup_cons.mp hn').1
    exact hnot (List.mem_map.mpr ⟨b, List.mem_cons_self _ _, by rw [hb, ha]⟩)
  · exact ⟨a, List.mem_cons_self _ _, ha⟩

/-- In a `Good` state, no recorded pair key touches an isolated room. -/
theorem good_keys_avoid_isolated (st : TopoState) (hG : Good st) (i : ℕ)
    (h0 : st.conns i = []) : ∀ p ∈ st.keys, p.1 ≠ i ∧ p.2 ≠ i := by
  obtain ⟨hsym, hkeys, -⟩ := hG
  intro p hp
  rw [hkeys] at hp
  rcases List.mem_map.mp hp with ⟨c, hc, rfl⟩
  obtain ⟨h1, h2⟩ := hsym c hc
  unfold canonPair canonKey
  split_ifs with hlt
  · constructor
    · intro heq
      dsimp only [] at heq
      rw [heq] at h1
      rw [h0] at h1
      exact absurd h1 (List.not_mem_nil _)
    · intro heq
      dsimp only [] at heq
      rw [heq] at h2
      rw [h0] at h2
      exact absurd h2 (List.not_mem_nil _)
  · constructor
    · intro heq
      dsimp only [] at heq
      rw [heq] at h2
      rw [h0] at h2
      exact absurd h2 (List.not_mem_nil _)
    · intro heq
      dsimp only [] at heq
      rw [heq] at h1
      rw [h0] at h1
      exact absurd h1 (List.not_mem_nil _)

/-- A fresh `addCorridor` records the connection on the first endpoint. -/
theorem addCorridor_conns_self (a b : Room) (s : ℚ) (st : TopoState)
    (hk : canonKey a.id b.id ∉ st.keys) :
    b.id ∈ (addCorridor a b s st).conns a.id := by
  simp only [addCorridor, if_neg hk]
  simp

/-- The connectivity-repair step leaves the processed room connected. -/
theorem repairOne_fixes (rooms : List Room) (room : Room) (st : TopoState)
    (hG : Good st) (hmem : room ∈ rooms) (hlen : 1 < rooms.length)
    (hids : (rooms.map (fun r => r.id)).Nodup)
    (hsent : ∀ r ∈ rooms, |r.sentiment| ≤ 1) :
    (repairOne rooms room st).conns room.id ≠ [] := by
  by_cases h0 : st.conns room.id = []
  · simp only [repairOne]
    rw [if_pos ⟨by rw [h0]; rfl, hlen⟩]
    have hcands : ∃ o ∈ (if (rooms.filter
        (fun r => r.topic = room.topic)).length > 1 then
        rooms.filter (fun r => r.topic = room.topic) else rooms.take 50),
        o.id ≠ room.id := by
      split_ifs with hst
      · refine exists_mem_ne_id _ ?_ hst _
        exact hids.sublist ((rooms.filter_sublist).map _)
      · refine exists_mem_ne_id _ ?_ ?_ _
        · exact hids.sublist ((rooms.take_sublist 50).map _)
        · rw [List.length_take]
          exact le_min (by norm_num) hlen
    have hsubset : ∀ x ∈ (if (rooms.filter
        (fun r => r.topic = room.topic)).length > 1 then
        rooms.filter (fun r => r.topic = room.topic) else rooms.take 50),
        x ∈ rooms := by
      split_ifs with hst
      · intro x hx
        exact List.mem_of_mem_filter hx
      · intro x hx
        exact List.take_subset 50 rooms hx
    obtain ⟨o, homem, hone⟩ := hcands
    have hosim : -1 < similarity room o := by
      have hb := similarity_mem_range room o (hsent room hmem)
        (hsent o (hsubset o homem))
      linarith [hb.1]
    rcases hfb : findBest room (if (rooms.filter
        (fun r => r.topic = room.topic)).length > 1 then
        rooms.filter (fun r => r.topic = room.topic) else rooms.take 50)
        (none, -1) with ⟨ob, bs⟩
    cases ob with
    | some b =>
        have hk : canonKey room.id b.id ∉ st.keys := by
          intro hkmem
          have havoid := good_keys_avoid_isolated st hG room.id h0 _ hkmem
          unfold canonKey at havoid
          split_ifs at havoid
          · exact havoid.1 rfl
          · exact havoid.2 rfl
        exact List.ne_nil_of_mem (addCorridor_conns_self room b bs st hk)
    | none =>
        have hnone : (findBest room (if (rooms.filter
            (fun r => r.topic = room.topic)).length > 1 then
            rooms.filter (fun r => r.topic = room.topic) else rooms.take 50)
            (none, -1)).1 = none := by
          rw [hfb]
        have := findBest_none_le room _ (-1) hnone o homem hone
        linarith
  · simp only [repairOne]
    rw [if_neg ?_]
    · exact h0
    · rintro ⟨hl, -⟩
      exact h0 (List.length_eq_zero.mp hl)

/-- The repair pass leaves every room of its worklist connected. -/
theorem repairPass_fixes (rooms : List Room) (hlen : 1 < rooms.length)
    (hids : (rooms.map (fun r => r.id)).Nodup)
    (hsent : ∀ r ∈ rooms, |r.sentiment| ≤ 1) :
    ∀ (l : List Room) (st : TopoState), Good st → (∀ r ∈ l, r ∈ rooms) →
      ∀ r ∈ l, (repairPass rooms l st).conns r.id ≠ [] := by
  intro l
  induction l with
  | nil =>
      intro st hG hsub r hr
      exact absurd hr (List.not_mem_nil r)
  | cons a l ih =>
      intro st hG hsub r hr
      simp only [repairPass]
      rcases List.mem_cons.mp hr with rfl | hmem
      · have hfix := repairOne_fixes rooms r st hG
          (hsub r (List.mem_cons_self _ _)) hlen hids hsent
        exact steps_conns_ne_nil (repairPass_steps rooms l _) _ hfix
      · exact ih (repairOne rooms a st)
          (steps_good (repairOne_steps rooms a st) hG)
          (fun x hx => hsub x (List.mem_cons_of_mem _ hx)) r hmem

end TopologyEngine

/-- C5: after every topology rebuild (for any sampling randomness and any
threshold) on more than one room with pairwise-distinct ids and sentiments
in [−1,1], every room's connection set is non-empty. -/
theorem claim_C5_connectivity (shuffle : ℕ → List Room → List Room)
    (threshold : ℚ) (rooms : List Room) (hlen : 1 < rooms.length)
    (hids : (rooms.map (fun r => r.id)).Nodup)
    (hsent : ∀ r ∈ rooms, |r.sentiment| ≤ 1) :
    ∀ r ∈ rooms,
      (TopologyEngine.generateCorridors shuffle threshold rooms).conns r.id ≠
        [] := by
  intro r hr
  have hG2 : TopologyEngine.Good ((TopologyEngine.crossPass threshold shuffle
      (TopologyEngine.byTopicList rooms) (TopologyEngine.byTopicList rooms) 0
      ((TopologyEngine.byTopicList rooms).foldl
        (fun s tg => TopologyEngine.intraGroup threshold tg.2 s)
        ⟨[], [], fun _ => []⟩)).1) :=
    TopologyEngine.steps_good
      ((TopologyEngine.intraPass_steps threshold _ _).trans
        (TopologyEngine.crossPass_steps threshold shuffle _ _ 0 _))
      TopologyEngine.good_init
  exact TopologyEngine.repairPass_fixes rooms hlen hids hsent rooms _ hG2
    (fun x hx => hx) r hr

/-- Witness for C5 on a two-room world (distinct topics, sentiments 0). -/
theorem claim_C5_witness :
    1 < ([mkRoom 1 "tech" 0 0 0 0 0,
        mkRoom 2 "science" 0 0 0 0 0] : List Room).length ∧
    (([mkRoom 1 "tech" 0 0 0 0 0,
        mkRoom 2 "science" 0 0 0 0 0] : List Room).map
      (fun r => r.id)).Nodup ∧
    (TopologyEngine.generateCorridors (fun _ l => l) (2 / 5)
        [mkRoom 1 "tech" 0 0 0 0 0, mkRoom 2 "science" 0 0 0 0 0]).conns
      (mkRoom 1 "tech" 0 0 0 0 0).id ≠ [] ∧
    (TopologyEngine.generateCorridors (fun _ l => l) (2 / 5)
        [mkRoom 1 "tech" 0 0 0 0 0, mkRoom 2 "science" 0 0 0 0 0]).conns
      (mkRoom 2 "science" 0 0 0 0 0).id ≠ [] := by
  refine ⟨by decide, by decide, ?_, ?_⟩
  · exact claim_C5_connectivity (fun _ l => l) (2 / 5) _ (by decide)
      (by decide) (by decide) _ (by decide)
  · exact claim_C5_connectivity (fun _ l => l) (2 / 5) _ (by decide)
      (by decide) (by decide) _ (by decide)

/-! ## C2: topic-emergence events -/

/-- Every event `prune` emits is a `room_pruned` event. -/
theorem pruneAll_events_etype (now : ℚ) (cyc : ℕ) (cs : List Corridor)
    (pids : List ℕ) (pickA : ℕ → ℕ) :
    ∀ (l : List Room) (k : ℕ) (kept : List Room),
      ∀ e ∈ (PruneEngine.pruneAll now cyc cs pids pickA l k kept).2.2,
        e.etype = "room_pruned" := by
  intro l
  induction l with
  | nil =>
      intro k kept e he
      exact absurd he (List.not_mem_nil e)
  | cons room rest ih =>
      intro k kept e he
      simp only [PruneEngine.pruneAll] at he
      rcases List.mem_cons.mp he with rfl | hmem
      · rfl
      · exact ih _ _ e hmem

/-- Every event in `prune`'s result is a `room_pruned` event. -/
theorem prune_events_etype (now : ℚ) (pickA : ℕ → ℕ) (st : WorldState)
    (sc : ℕ) :
    ∀ e ∈ (PruneEngine.prune now pickA st sc).events,
      e.etype = "room_pruned" := by
  intro e he
  exact pruneAll_events_etype now st.observationCycles st.corridors _ pickA
    _ 0 _ e he

/-- If every newly admitted room's topic is already present among the state's
rooms — which is how `World.cycle` calls it — `detect` derives no
`topic_emerged` event beyond those in the passed-through prune events. -/
theorem detect_no_emerged (now : ℚ) (st : WorldState)
    (ctx : EventTracker.EvContext)
    (hnew : ∀ r ∈ ctx.newRooms, r.topic ∈ st.rooms.map (fun r => r.topic))
    (hpe : ∀ e ∈ ctx.pruneEvents, e.etype ≠ "topic_emerged") :
    ∀ e ∈ EventTracker.detect now st ctx, e.etype ≠ "topic_emerged" := by
  intro e he
  simp only [EventTracker.detect, List.mem_append] at he
  rcases he with ((((hpeM | hem) | hd) | hdom) | hm)
  · exact hpe e hpeM
  · exfalso
    have hfil : ctx.newRooms.filter
        (fun r => r.topic ∉ st.rooms.map (fun r => r.topic)) = [] := by
      rw [List.filter_eq_nil]
      intro r hr
      simpa using hnew r hr
    rw [hfil] at hem
    simp [firstOccs] at hem
  · by_cases h : ctx.prunedRooms.length > 0
    · rw [if_pos h] at hd
      rcases List.mem_map.mp hd with ⟨t, ht, rfl⟩
      exact (show ("topic_death" : String) ≠ "topic_emerged" by decide)
    · rw [if_neg h] at hd
      exact absurd hd (List.not_mem_nil e)
  · rcases List.mem_map.mp hdom with ⟨x, hx, rfl⟩
    exact (show ("entity_dominant" : String) ≠ "topic_emerged" by decide)
  · by_cases h : ctx.prunedRooms.length ≥ 10
    · rw [if_pos h] at hm
      rcases List.mem_cons.mp hm with rfl | hm'
      · exact (show ("mass_collapse" : String) ≠ "topic_emerged" by decide)
      · exact absurd hm' (List.not_mem_nil e)
    · rw [if_neg h] at hm
      exact absurd hm (List.not_mem_nil e)

/-- `record` only reorders/trims: members come from the inputs. -/
theorem record_mem_subset (evs new : List Event) (e : Event)
    (he : e ∈ EventTracker.record evs new) : e ∈ evs ++ new := by
  simp only [EventTracker.record] at he
  split_ifs at he with h
  · exact List.drop_subset _ _ he
  · exact he

/-- The event log a non-empty cycle produces is `record` applied to a
`detect` call whose new rooms' topics are all already present in the room
list it is given, and whose passed-through prune events are all
`room_pruned`. -/
theorem cycle_events_shape (o : World.CycleOracles) (now : ℚ)
    (st : WorldState) (observations : List Obs)
    (hobs : ¬observations.length = 0) :
    ∃ (stD : WorldState) (ctx : EventTracker.EvContext),
      (World.cycle o now st observations).events =
        EventTracker.record st.events (EventTracker.detect now stD ctx) ∧
      (∀ r ∈ ctx.newRooms, r.topic ∈ stD.rooms.map (fun r => r.topic)) ∧
      (∀ e ∈ ctx.pruneEvents, e.etype = "room_pruned") := by
  unfold World.cycle
  rw [if_neg hobs]
  refine ⟨_, _, rfl, ?_, ?_⟩
  · intro r hr
    simp only [List.map_map]
    exact List.mem_map.mpr ⟨r, List.mem_append_right _ hr, rfl⟩
  · intro ev hev
    exact prune_events_etype now o.pickAbsorb _ 5 ev hev

/-- In the composed v2 cycle, a `topic_emerged` event can only be one that
was already in the event log: the orchestrator admits the new rooms into
`state.rooms` *before* calling `detect`, so the emergence check can never
fire. -/
theorem cycle_adds_no_topic_emerged (o : World.CycleOracles) (now : ℚ)
    (st : WorldState) (observations : List Obs) :
    ∀ e ∈ (World.cycle o now st observations).events,
      e.etype = "topic_emerged" → e ∈ st.events := by
  intro e he hety
  by_cases hobs : observations.length = 0
  · unfold World.cycle at he
    rw [if_pos hobs] at he
    exact he
  · obtain ⟨stD, ctx, heq, hnew, hpe⟩ :=
      cycle_events_shape o now st observations hobs
    rw [heq] at he
    rcases List.mem_append.mp (record_mem_subset _ _ e he) with hold | hnewe
    · exact hold
    · exact absurd hety (detect_no_emerged now stD ctx hnew
        (fun ev hev => by
          rw [hpe ev hev]
          exact (show ("room_pruned" : String) ≠ "topic_emerged" by decide))
        e hnewe)

/-- The single observation of the C2 run: a fresh "science" topic. -/
def obsC2 : Obs :=
  { text := "t", topic := "science", sentiment := 0, virality := 0 }

/-- The prior world of the C2 run: one "tech" room, no "science" room. -/
def stC2 : WorldState :=
  { version := 2, createdAt := 0, lastUpdate := none, observationCycles := 0,
    rooms := [mkRoom 1 "tech" 0 0 0 0 0], corridors := [], artifacts := [],
    entities := [], events := [], memory := ⟨[], [], 50⟩,
    stats := ⟨0, 0, [], 0, 0⟩ }

/-- Concrete oracles for the C2 run: the room factory turns the observation
into one "science" room; all randomness is fixed. -/
def oC2 : World.CycleOracles :=
  { roomGen := fun _ => [mkRoom 2 "science" 0 0 0 0 0],
    entityUpdate := fun es _ => es,
    expFn := fun _ => 1,
    scrambleFn := fun _ s => s,
    dimFn := fun _ s => s,
    fxRand := fun _ => 0,
    annotate := fun _ => "",
    pickAbsorb := fun _ => 0,
    pickWander := fun _ => 0,
    shuffle := fun _ l => l,
    layoutPos := fun _ => (0, 0) }

/-- C2 (code bug, failing input): the cycle admits a room of the brand-new
topic "science" (absent from the prior node set), yet produces *no*
`topic_emerged` event — `World.cycle` pushes the new rooms into
`state.rooms` before `EventTracker.detect` runs, so the
"absent from the prior node set" test is evaluated against a node set that
already contains every new room and never fires. -/
theorem claim_C2_topic_emerged_never_fires :
    "science" ∉ stC2.rooms.map (fun r => r.topic) ∧
    "science" ∈ (World.cycle oC2 0 stC2 [obsC2]).rooms.map
      (fun r => r.topic) ∧
    (World.cycle oC2 0 stC2 [obsC2]).events.filter
      (fun e => e.etype = "topic_emerged") = [] := by
  decide
